import Mathlib

/-!
Verification of the workflow-queue system specified for this repository.
The notebook under src/ only calls an external launch-pad/worker stack
(LaunchPad.reset, LaunchPad.add_wf, LaunchPad.get_wf_summary_dict, rlaunch),
so the store, submission, and worker logic are modelled here from the
specification's own description and verified against its claims.
-/

namespace Workshop

/-- Modelled from the spec: the Job status
state machine values WAITING, READY, RUNNING, COMPLETED, FAILED.
The implementing code (fireworks) is not in the repository. -/
inductive Status
  | waiting
  | ready
  | running
  | completed
  | failed
deriving DecidableEq, Repr

/-- Modelled from the spec: a Job of a workflow as submitted: the set of
parent job indices it depends on (indices into the workflow's job list) and
its ordered task sequence, each task recorded by its success/failure outcome.
The implementing code is not in the repository. -/
structure WJob where
  parents : List Nat
  tasks : List Bool
deriving DecidableEq, Repr

/-- Modelled from the spec: a Workflow is a list of Jobs with dependency
edges given by each job's parent indices. -/
abbrev Workflow := List WJob

/-- Modelled from the spec: a persisted Job record: unique identifier,
owning workflow identifier, parent job identifiers, task sequence, status. -/
structure Job where
  jid : Nat
  wfId : Nat
  parents : List Nat
  tasks : List Bool
  status : Status
deriving DecidableEq, Repr

/-- Modelled from the spec: the Workflow Store: persisted Job records, the
registered workflow identifiers, and the next identifiers to assign. -/
structure Store where
  jobs : List Job
  wfs : List Nat
  nextWf : Nat
  nextJob : Nat
deriving DecidableEq, Repr

/-- Modelled from the spec: the error taxonomy: ValidationError,
NotFoundError, ClaimConflictError, TaskExecutionError. -/
inductive Err
  | validationError
  | notFoundError
  | claimConflictError
  | taskExecutionError
deriving DecidableEq, Repr

/-- Modelled from the spec: the store right after initialization:
no jobs, no workflows, identifiers start at 1. -/
def empty_store : Store :=
  { jobs := [], wfs := [], nextWf := 1, nextJob := 1 }

/-- Modelled from the spec: reset clears all stored workflows —
a destructive, explicit operation. -/
def reset (_ : Store) : Store := empty_store

/-- Modelled from the spec: a pending workflow job is removable in the
cycle check once all its parents have been removed. -/
def removable (done : List Nat) (p : Nat × WJob) : Bool :=
  p.2.parents.all (fun q => done.contains q)

/-- Modelled from the spec: acyclicity check by repeatedly removing jobs
whose parents are all removed; a nonempty residue means a cycle. -/
def acyclic_aux : Nat → List (Nat × WJob) → List Nat → Bool
  | 0, pending, _ => pending.isEmpty
  | fuel + 1, pending, done =>
    let rem := pending.filter (removable done)
    if rem.isEmpty then pending.isEmpty
    else acyclic_aux fuel (pending.filter (fun p => ! removable done p))
      (done ++ rem.map Prod.fst)

/-- Modelled from the spec: a workflow is a DAG (acyclic) when the
iterated removal of parent-satisfied jobs empties it. -/
def acyclic (wf : Workflow) : Bool :=
  acyclic_aux wf.length wf.enum []

/-- Modelled from the spec: the persisted records for a submitted
workflow: job at index i gets identifier base + i, parents are remapped to
global identifiers, and the initial status is READY for a job with no
parents and WAITING otherwise. -/
def mkJobs (w base : Nat) : List WJob → Nat → List Job
  | [], _ => []
  | wj :: rest, i =>
    { jid := base + i, wfId := w,
      parents := wj.parents.map (fun q => base + q),
      tasks := wj.tasks,
      status := if wj.parents.isEmpty then Status.ready else Status.waiting }
      :: mkJobs w base rest (i + 1)

/-- Modelled from the spec: submit validates the DAG is acyclic, assigns
identifiers, persists all Jobs as WAITING/READY per the invariant, and
returns the workflow identifier; it fails with ValidationError before any
persistence if a cycle is detected. -/
def submit (s : Store) (wf : Workflow) : Except Err Nat × Store :=
  if acyclic wf then
    (Except.ok s.nextWf,
      { jobs := s.jobs ++ mkJobs s.nextWf s.nextJob wf 0,
        wfs := s.wfs ++ [s.nextWf],
        nextWf := s.nextWf + 1,
        nextJob := s.nextJob + wf.length })
  else (Except.error Err.validationError, s)

/-- Modelled from the spec: status lookup in a job-record list by job
identifier (first record with that identifier; WAITING when absent). -/
def find_status (l : List Job) (p : Nat) : Status :=
  match l.find? (fun x => x.jid == p) with
  | some x => x.status
  | none => Status.waiting

/-- Modelled from the spec: the status of the job with the given
identifier in the store. -/
def jobStatus (s : Store) (p : Nat) : Status := find_status s.jobs p

/-- Modelled from the spec: get_summary returns per-job status for the
given workflow identifier, failing with NotFoundError if unknown. -/
def get_summary (s : Store) (w : Nat) : Except Err (List (Nat × Status)) :=
  if w ∈ s.wfs then
    Except.ok ((s.jobs.filter (fun x => x.wfId == w)).map (fun x => (x.jid, x.status)))
  else Except.error Err.notFoundError

/-- Modelled from the spec: overwrite the status of the job with the
given identifier. -/
def setStatus (s : Store) (j : Nat) (st : Status) : Store :=
  { s with jobs := s.jobs.map (fun x => if x.jid == j then { x with status := st } else x) }

/-- Modelled from the spec: all parents of a job are COMPLETED. -/
def parents_done (s : Store) (c : Job) : Prop :=
  ∀ p ∈ c.parents, jobStatus s p = Status.completed

instance (s : Store) (c : Job) : Decidable (parents_done s c) := by
  unfold parents_done; infer_instance

/-- Modelled from the spec: the atomic claim-and-mark-RUNNING step: a
single conditional update keyed by current status, which fails with
ClaimConflictError if the job's status is no longer READY. -/
def tryClaim (s : Store) (j : Nat) : Except Err Store :=
  if jobStatus s j = Status.ready then Except.ok (setStatus s j Status.running)
  else Except.error Err.claimConflictError

/-- Modelled from the spec: execute the task sequence in order, stopping
at the first task failure; the run succeeds when every task succeeds. -/
def run_tasks : List Bool → Bool
  | [] => true
  | t :: ts => if t then run_tasks ts else false

/-- Modelled from the spec: after a job completes, recompute the READY
status of each child: a WAITING child of the completed job becomes READY
only once all of its parents are COMPLETED. -/
def updateChildren (s : Store) (j : Nat) : Store :=
  { s with jobs := s.jobs.map (fun c =>
      if j ∈ c.parents ∧ c.status = Status.waiting ∧ parents_done s c
      then { c with status := Status.ready } else c) }

/-- Modelled from the spec: finish a claimed (RUNNING) job: run its
tasks; on success mark COMPLETED and recompute children's readiness; on
failure mark FAILED and leave children WAITING. -/
def finish_job (s : Store) (j : Nat) : Store :=
  match s.jobs.find? (fun x => x.jid == j) with
  | none => s
  | some jb =>
    if run_tasks jb.tasks
    then updateChildren (setStatus s j Status.completed) j
    else setStatus s j Status.failed

/-- Modelled from the spec: the READY job records of the store. -/
def readyJobs (s : Store) : List Job :=
  s.jobs.filter (fun x => decide (x.status = Status.ready))

/-- Modelled from the spec: least job identifier in a record list, used
to select the oldest-created READY job (identifiers are assigned in
creation order, tie-break by identifier). -/
def minJid : List Job → Option Nat
  | [] => none
  | x :: xs =>
    match minJid xs with
    | none => some x.jid
    | some m => some (if x.jid ≤ m then x.jid else m)

/-- Modelled from the spec: select one READY job, oldest-created first
with identifier tie-break. -/
def selectReady (s : Store) : Option Nat := minJid (readyJobs s)

/-- Modelled from the spec: outcome of one launch: a job was executed,
nothing was ready to run (a distinct non-error outcome), or an
unrecoverable store error occurred. -/
inductive LaunchOutcome
  | launched (j : Nat)
  | nothingToRun
  | storeError
deriving DecidableEq, Repr

/-- Modelled from the spec: the exit code of a launch invocation: 0 on
normal completion including nothing-to-run, non-zero only on an
unrecoverable store error. -/
def exit_code : LaunchOutcome → Nat
  | LaunchOutcome.launched _ => 0
  | LaunchOutcome.nothingToRun => 0
  | LaunchOutcome.storeError => 1

/-- Modelled from the spec: single-launch mode: select one READY job,
claim it, execute it to COMPLETED or FAILED, and exit; report
nothing-to-run when no job is READY. -/
def launch_one (s : Store) : LaunchOutcome × Store :=
  match selectReady s with
  | none => (LaunchOutcome.nothingToRun, s)
  | some j =>
    match tryClaim s j with
    | Except.ok s1 => (LaunchOutcome.launched j, finish_job s1 j)
    | Except.error _ => (LaunchOutcome.nothingToRun, s)

/-- Modelled from the spec: the number of WAITING or READY job records,
a bound on the remaining launches of rapid-fire mode. -/
def active (s : Store) : Nat :=
  (s.jobs.filter (fun x =>
    decide (x.status = Status.waiting ∨ x.status = Status.ready))).length

/-- Modelled from the spec: the rapid-fire loop body: keep launching
while a launch executed a job, within the given launch budget. -/
def rapidfire_aux : Nat → Store → Store
  | 0, s => s
  | fuel + 1, s =>
    match launch_one s with
    | (LaunchOutcome.launched _, s1) => rapidfire_aux fuel s1
    | (_, _) => s

/-- Modelled from the spec: rapid-fire mode: continuous launching until
no job is READY or RUNNING anywhere in scope. -/
def rapidfire (s : Store) : Store := rapidfire_aux (active s) s

/-- Modelled from the spec: a worker that, when its claim is rejected by
the conditional update, retries job selection instead of surfacing the
conflict to the caller. -/
def claim_with_retry : Nat → Store → Option (Nat × Store)
  | 0, _ => none
  | fuel + 1, s =>
    match selectReady s with
    | none => none
    | some j =>
      match tryClaim s j with
      | Except.ok s1 => some (j, s1)
      | Except.error _ => claim_with_retry fuel s

/-- Modelled from the spec: the states the Workflow Store can reach
through the specified operations: initialization, submit, the worker's
launches, and reset. -/
inductive Reachable : Store → Prop
  | init : Reachable empty_store
  | step_submit {s : Store} (wf : Workflow) : Reachable s → Reachable (submit s wf).2
  | step_launch {s : Store} : Reachable s → Reachable (launch_one s).2
  | step_reset {s : Store} : Reachable s → Reachable (reset s)

/-- Modelled from the spec: the parent/child status invariant: every job
that has progressed past WAITING has all of its parents COMPLETED. -/
def statusInv (s : Store) : Prop :=
  ∀ x ∈ s.jobs, x.status ≠ Status.waiting → parents_done s x

instance (s : Store) : Decidable (statusInv s) := by
  unfold statusInv; infer_instance

/-- Modelled from the spec: store well-formedness: assigned identifiers
are below the next free ones and pairwise distinct, and a non-WAITING job
has all parents COMPLETED. -/
def wf_store (s : Store) : Prop :=
  (∀ x ∈ s.jobs, x.jid < s.nextJob) ∧
  (s.jobs.map Job.jid).Nodup ∧
  (∀ x ∈ s.jobs, x.wfId < s.nextWf) ∧
  (∀ w ∈ s.wfs, w < s.nextWf) ∧
  statusInv s

instance (s : Store) : Decidable (wf_store s) := by
  unfold wf_store; infer_instance

/-- Modelled from the spec: the legal single transitions of the Job status
state machine: WAITING to READY, READY to RUNNING, RUNNING to COMPLETED,
RUNNING to FAILED. -/
inductive StepEdge : Status → Status → Prop
  | wake : StepEdge Status.waiting Status.ready
  | claim : StepEdge Status.ready Status.running
  | complete : StepEdge Status.running Status.completed
  | fail : StepEdge Status.running Status.failed

/-- Modelled from the spec: a (possibly empty) path in the status state
machine, so that COMPLETED and FAILED are terminal. -/
def machine_path : Status → Status → Prop := Relation.ReflTransGen StepEdge

/-- Modelled from the spec: no job record is currently RUNNING (the
worker is quiescent, or in-flight jobs have run to completion). -/
def no_running (s : Store) : Prop := ∀ x ∈ s.jobs, x.status ≠ Status.running

instance (s : Store) : Decidable (no_running s) := by
  unfold no_running; infer_instance

/-! Concrete inputs used by the witnesses below. -/

/-- A two-job chain workflow: job 0 with no parents, job 1 depending on it. -/
def wfChain : Workflow := [⟨[], [true]⟩, ⟨[0], [true]⟩]

/-- The store after submitting the chain workflow to a fresh store. -/
def sChain : Store := (submit empty_store wfChain).2

/-- A chain workflow whose first job fails its only task. -/
def wfFail : Workflow := [⟨[], [false]⟩, ⟨[0], [true]⟩]

/-- The store after submitting the failing chain and launching once. -/
def sFail : Store := (launch_one (submit empty_store wfFail).2).2

/-- A cyclic workflow: its single job lists itself as parent. -/
def wfCyc : Workflow := [⟨[0], []⟩]

/-- A raw store holding two records with a duplicated identifier, where
the first record with identifier 1 is no longer READY. -/
def sDup : Store :=
  { jobs := [⟨1, 1, [], [], Status.running⟩, ⟨1, 1, [], [], Status.ready⟩],
    wfs := [1], nextWf := 2, nextJob := 2 }

/-! Basic lemmas about status lookup and the store updates. -/

lemma find?_jid_map (f : Job → Job) (hf : ∀ x, (f x).jid = x.jid)
    (l : List Job) (p : Nat) :
    (l.map f).find? (fun x => x.jid == p) = (l.find? (fun x => x.jid == p)).map f := by
  induction l with
  | nil => rfl
  | cons a t ih =>
    by_cases h : (a.jid == p) = true
    · have hfa : ((f a).jid == p) = true := by rw [hf a]; exact h
      rw [List.map_cons,
        List.find?_cons_of_pos (p := fun x => x.jid == p) (t.map f) hfa,
        List.find?_cons_of_pos (p := fun x => x.jid == p) t h]
      rfl
    · have hfa : ¬ ((f a).jid == p) = true := by rw [hf a]; exact h
      rw [List.map_cons,
        List.find?_cons_of_neg (p := fun x => x.jid == p) (t.map f) hfa,
        List.find?_cons_of_neg (p := fun x => x.jid == p) t h]
      exact ih

lemma setStatus_jobs (s : Store) (j : Nat) (st : Status) :
    (setStatus s j st).jobs
      = s.jobs.map (fun x => if x.jid == j then { x with status := st } else x) := rfl

lemma updateChildren_jobs (s : Store) (j : Nat) :
    (updateChildren s j).jobs
      = s.jobs.map (fun c =>
          if j ∈ c.parents ∧ c.status = Status.waiting ∧ parents_done s c
          then { c with status := Status.ready } else c) := rfl

lemma find_status_eq_of_find? {l : List Job} {p : Nat} {x : Job}
    (h : l.find? (fun y => y.jid == p) = some x) : find_status l p = x.status := by
  unfold find_status; rw [h]

lemma setStatus_upd_ne (j : Nat) (st : Status) (x : Job) (h : x.jid ≠ j) :
    (if x.jid == j then { x with status := st } else x) = x := by
  rw [if_neg (by simp [h])]

lemma setStatus_upd_eq (j : Nat) (st : Status) (x : Job) (h : x.jid = j) :
    (if x.jid == j then { x with status := st } else x) = { x with status := st } := by
  rw [if_pos (by simp [h])]

lemma upd_run_jid (j : Nat) (st : Status) (x : Job) :
    (if x.jid == j then { x with status := st } else x).jid = x.jid := by
  split <;> rfl

lemma upd_run_parents (j : Nat) (st : Status) (x : Job) :
    (if x.jid == j then { x with status := st } else x).parents = x.parents := by
  split <;> rfl

lemma upd_child_jid (s : Store) (j : Nat) (x : Job) :
    (if j ∈ x.parents ∧ x.status = Status.waiting ∧ parents_done s x
      then { x with status := Status.ready } else x).jid = x.jid := by
  split <;> rfl

lemma upd_child_parents (s : Store) (j : Nat) (x : Job) :
    (if j ∈ x.parents ∧ x.status = Status.waiting ∧ parents_done s x
      then { x with status := Status.ready } else x).parents = x.parents := by
  split <;> rfl

lemma exists_find?_of_ne_waiting {s : Store} {p : Nat}
    (h : jobStatus s p ≠ Status.waiting) :
    ∃ x, s.jobs.find? (fun y => y.jid == p) = some x ∧ x.jid = p
      ∧ x.status = jobStatus s p := by
  unfold jobStatus find_status at *
  cases hf : s.jobs.find? (fun y => y.jid == p) with
  | none => rw [hf] at h; exact absurd rfl h
  | some x =>
    refine ⟨x, rfl, ?_, rfl⟩
    have := List.find?_some hf
    simpa using this

lemma jobStatus_setStatus_ne {s : Store} {j p : Nat} (st : Status) (h : p ≠ j) :
    jobStatus (setStatus s j st) p = jobStatus s p := by
  unfold jobStatus find_status
  rw [setStatus_jobs, find?_jid_map _ (fun x => by split <;> rfl)]
  cases hf : s.jobs.find? (fun y => y.jid == p) with
  | none => rfl
  | some x =>
    have hx : x.jid = p := by simpa using List.find?_some hf
    show (if x.jid == j then { x with status := st } else x).status = x.status
    rw [setStatus_upd_ne _ _ _ (by rw [hx]; exact h)]

lemma jobStatus_setStatus_self {s : Store} {j : Nat} (st : Status)
    (h : jobStatus s j ≠ Status.waiting) :
    jobStatus (setStatus s j st) j = st := by
  obtain ⟨x, hf, hx, _⟩ := exists_find?_of_ne_waiting h
  unfold jobStatus find_status
  rw [setStatus_jobs, find?_jid_map _ (fun x => by split <;> rfl), hf]
  show (if x.jid == j then { x with status := st } else x).status = st
  rw [setStatus_upd_eq _ _ _ hx]

lemma jobStatus_updateChildren (s : Store) (j p : Nat) :
    jobStatus (updateChildren s j) p = jobStatus s p
      ∨ (jobStatus s p = Status.waiting
          ∧ jobStatus (updateChildren s j) p = Status.ready) := by
  unfold jobStatus find_status
  rw [updateChildren_jobs, find?_jid_map _ (fun x => by split <;> rfl)]
  cases hf : s.jobs.find? (fun y => y.jid == p) with
  | none => left; rfl
  | some x =>
    by_cases hc : j ∈ x.parents ∧ x.status = Status.waiting ∧ parents_done s x
    · right
      refine ⟨hc.2.1, ?_⟩
      show (if j ∈ x.parents ∧ x.status = Status.waiting ∧ parents_done s x
        then { x with status := Status.ready } else x).status = Status.ready
      rw [if_pos hc]
    · left
      show (if j ∈ x.parents ∧ x.status = Status.waiting ∧ parents_done s x
        then { x with status := Status.ready } else x).status = x.status
      rw [if_neg hc]

lemma jobStatus_updateChildren_completed {s : Store} {j p : Nat}
    (h : jobStatus (updateChildren s j) p = Status.completed) :
    jobStatus s p = Status.completed := by
  rcases jobStatus_updateChildren s j p with h' | ⟨_, h'⟩
  · rw [← h', h]
  · rw [h'] at h; exact absurd h (by decide)

lemma jobStatus_updateChildren_of_completed {s : Store} {j p : Nat}
    (h : jobStatus s p = Status.completed) :
    jobStatus (updateChildren s j) p = Status.completed := by
  rcases jobStatus_updateChildren s j p with h' | ⟨hw, _⟩
  · rw [h', h]
  · rw [h] at hw; exact absurd hw (by decide)

lemma find?_jid_of_nodup :
    ∀ {l : List Job}, (l.map Job.jid).Nodup → ∀ x ∈ l,
      l.find? (fun y => y.jid == x.jid) = some x := by
  intro l
  induction l with
  | nil => intro _ x hx; cases hx
  | cons a t ih =>
    intro hn x hx
    rw [List.map_cons, List.nodup_cons] at hn
    rcases List.mem_cons.mp hx with hx | hx
    · subst hx; simp
    · have hne : a.jid ≠ x.jid := by
        intro h
        exact hn.1 (h ▸ List.mem_map_of_mem Job.jid hx)
      rw [List.find?_cons_of_neg _ (by simp [hne])]
      exact ih hn.2 x hx

lemma jobStatus_of_mem {s : Store} {x : Job}
    (hn : (s.jobs.map Job.jid).Nodup) (hx : x ∈ s.jobs) :
    jobStatus s x.jid = x.status := by
  unfold jobStatus find_status
  rw [find?_jid_of_nodup hn x hx]

lemma record_unique {s : Store} {x y : Job}
    (hn : (s.jobs.map Job.jid).Nodup) (hx : x ∈ s.jobs) (hy : y ∈ s.jobs)
    (h : x.jid = y.jid) : x = y := by
  have h1 := find?_jid_of_nodup hn x hx
  have h2 := find?_jid_of_nodup hn y hy
  rw [h] at h1
  rw [h1] at h2
  exact Option.some.inj h2

/-! Lemmas on job selection, claiming, and launching. -/

lemma minJid_cons (a : Job) (t : List Job) : ∃ m, minJid (a :: t) = some m := by
  unfold minJid
  cases minJid t with
  | none => exact ⟨a.jid, rfl⟩
  | some k => exact ⟨if a.jid ≤ k then a.jid else k, rfl⟩

lemma minJid_eq_none {l : List Job} : minJid l = none ↔ l = [] := by
  cases l with
  | nil => simp [minJid]
  | cons a t =>
    constructor
    · intro h
      obtain ⟨m, hm⟩ := minJid_cons a t
      rw [hm] at h
      cases h
    · intro h; cases h

lemma minJid_mem : ∀ {l : List Job} {m : Nat}, minJid l = some m → ∃ x ∈ l, x.jid = m := by
  intro l
  induction l with
  | nil => intro m h; cases h
  | cons a t ih =>
    intro m h
    cases ht : minJid t with
    | none =>
      have h' : some a.jid = some m := by
        rw [← h]
        unfold minJid
        rw [ht]
      exact ⟨a, List.mem_cons_self a t, Option.some.inj h'⟩
    | some k =>
      have h' : some (if a.jid ≤ k then a.jid else k) = some m := by
        rw [← h]
        unfold minJid
        rw [ht]
      by_cases hle : a.jid ≤ k
      · rw [if_pos hle] at h'
        exact ⟨a, List.mem_cons_self a t, Option.some.inj h'⟩
      · rw [if_neg hle] at h'
        obtain ⟨x, hx, hxk⟩ := ih ht
        exact ⟨x, List.mem_cons_of_mem a hx, by rw [hxk]; exact Option.some.inj h'⟩

lemma selectReady_none {s : Store} (h : selectReady s = none) :
    ∀ x ∈ s.jobs, x.status ≠ Status.ready := by
  intro x hx hst
  have : readyJobs s = [] := minJid_eq_none.mp h
  have : x ∈ readyJobs s := by
    unfold readyJobs
    rw [List.mem_filter]
    exact ⟨hx, by simp [hst]⟩
  rw [minJid_eq_none.mp h] at this
  cases this

lemma selectReady_some {s : Store} {j : Nat} (h : selectReady s = some j) :
    ∃ x ∈ s.jobs, x.jid = j ∧ x.status = Status.ready := by
  obtain ⟨x, hx, hxj⟩ := minJid_mem h
  simp only [readyJobs] at hx
  rw [List.mem_filter] at hx
  exact ⟨x, hx.1, hxj, by simpa using hx.2⟩

lemma selectReady_status {s : Store} {j : Nat}
    (hn : (s.jobs.map Job.jid).Nodup) (h : selectReady s = some j) :
    jobStatus s j = Status.ready := by
  obtain ⟨x, hx, hxj, hst⟩ := selectReady_some h
  rw [← hxj, jobStatus_of_mem hn hx, hst]

lemma tryClaim_ok {s s1 : Store} {j : Nat} (h : tryClaim s j = Except.ok s1) :
    jobStatus s j = Status.ready ∧ s1 = setStatus s j Status.running := by
  unfold tryClaim at h
  by_cases hr : jobStatus s j = Status.ready
  · rw [if_pos hr] at h
    exact ⟨hr, (Except.ok.inj h).symm⟩
  · rw [if_neg hr] at h
    cases h

lemma tryClaim_error_iff {s : Store} {j : Nat} :
    tryClaim s j = Except.error Err.claimConflictError ↔ jobStatus s j ≠ Status.ready := by
  unfold tryClaim
  by_cases hr : jobStatus s j = Status.ready
  · rw [if_pos hr]; simp [hr]
  · rw [if_neg hr]; simp [hr]

lemma launch_one_of_none {s : Store} (h : selectReady s = none) :
    launch_one s = (LaunchOutcome.nothingToRun, s) := by
  unfold launch_one
  rw [h]

lemma launch_one_of_claim {s s1 : Store} {j : Nat}
    (hsel : selectReady s = some j) (hclaim : tryClaim s j = Except.ok s1) :
    launch_one s = (LaunchOutcome.launched j, finish_job s1 j) := by
  have h1 : launch_one s
      = match tryClaim s j with
        | Except.ok s2 => (LaunchOutcome.launched j, finish_job s2 j)
        | Except.error _ => (LaunchOutcome.nothingToRun, s) := by
    unfold launch_one
    rw [hsel]
  rw [h1, hclaim]

lemma launch_one_of_conflict {s : Store} {j : Nat} {e : Err}
    (hsel : selectReady s = some j) (hclaim : tryClaim s j = Except.error e) :
    launch_one s = (LaunchOutcome.nothingToRun, s) := by
  have h1 : launch_one s
      = match tryClaim s j with
        | Except.ok s2 => (LaunchOutcome.launched j, finish_job s2 j)
        | Except.error _ => (LaunchOutcome.nothingToRun, s) := by
    unfold launch_one
    rw [hsel]
  rw [h1, hclaim]

lemma launch_one_nodup {s : Store} (hn : (s.jobs.map Job.jid).Nodup) :
    launch_one s
      = match selectReady s with
        | none => (LaunchOutcome.nothingToRun, s)
        | some j =>
          (LaunchOutcome.launched j,
            finish_job (setStatus s j Status.running) j) := by
  cases hsel : selectReady s with
  | none => exact launch_one_of_none hsel
  | some j =>
    have hr := selectReady_status hn hsel
    have hclaim : tryClaim s j = Except.ok (setStatus s j Status.running) := by
      unfold tryClaim; rw [if_pos hr]
    exact launch_one_of_claim hsel hclaim

lemma launch_one_launched {s : Store} {j : Nat}
    (h : (launch_one s).1 = LaunchOutcome.launched j) :
    selectReady s = some j ∧ ∃ s1, tryClaim s j = Except.ok s1
      ∧ (launch_one s).2 = finish_job s1 j := by
  cases hsel : selectReady s with
  | none =>
    rw [launch_one_of_none hsel] at h
    cases h
  | some j' =>
    cases hclaim : tryClaim s j' with
    | ok s1 =>
      rw [launch_one_of_claim hsel hclaim] at h
      have hj : j' = j := LaunchOutcome.launched.inj h
      subst hj
      exact ⟨rfl, s1, hclaim, by rw [launch_one_of_claim hsel hclaim]⟩
    | error e =>
      rw [launch_one_of_conflict hsel hclaim] at h
      cases h

lemma finish_job_eq {s : Store} {j : Nat} (h : jobStatus s j = Status.running) :
    ∃ jb, s.jobs.find? (fun x => x.jid == j) = some jb ∧ jb.status = Status.running ∧
      finish_job s j
        = (if run_tasks jb.tasks
           then updateChildren (setStatus s j Status.completed) j
           else setStatus s j Status.failed) := by
  obtain ⟨jb, hf, _, hst⟩ := exists_find?_of_ne_waiting (p := j) (by rw [h]; decide)
  refine ⟨jb, hf, by rw [hst, h], ?_⟩
  unfold finish_job
  rw [hf]

/-! Preservation of the store invariants by every operation. -/

lemma find_status_append {l1 : List Job} (l2 : List Job) {p : Nat}
    (h : find_status l1 p ≠ Status.waiting) :
    find_status (l1 ++ l2) p = find_status l1 p := by
  unfold find_status at *
  cases hf : l1.find? (fun x => x.jid == p) with
  | none => rw [hf] at h; exact absurd rfl h
  | some x => rw [List.find?_append, hf, Option.or_some]

lemma mem_mkJobs :
    ∀ (l : List WJob) (w base i : Nat) (x : Job), x ∈ mkJobs w base l i →
      x.wfId = w ∧ base + i ≤ x.jid ∧ x.jid < base + i + l.length ∧
      ∃ wj ∈ l, x.parents = wj.parents.map (fun q => base + q) ∧ x.tasks = wj.tasks ∧
        x.status = (if wj.parents.isEmpty then Status.ready else Status.waiting) := by
  intro l
  induction l with
  | nil => intro w base i x hx; cases hx
  | cons wj rest ih =>
    intro w base i x hx
    rcases List.mem_cons.mp hx with hx | hx
    · subst hx
      refine ⟨rfl, Nat.le_refl _, ?_, wj, List.mem_cons_self wj rest, rfl, rfl, rfl⟩
      show base + i < base + i + (rest.length + 1)
      omega
    · obtain ⟨hw, hlo, hhi, wj', hwj', hrest⟩ := ih w base (i + 1) x hx
      refine ⟨hw, by omega, ?_, wj', List.mem_cons_of_mem wj hwj', hrest⟩
      show x.jid < base + i + (rest.length + 1)
      omega

lemma mkJobs_jids_nodup :
    ∀ (l : List WJob) (w base i : Nat), ((mkJobs w base l i).map Job.jid).Nodup := by
  intro l
  induction l with
  | nil => intro w base i; simp [mkJobs]
  | cons wj rest ih =>
    intro w base i
    unfold mkJobs
    rw [List.map_cons, List.nodup_cons]
    refine ⟨?_, ih w base (i + 1)⟩
    intro hmem
    obtain ⟨x, hx, hxj⟩ := List.mem_map.mp hmem
    obtain ⟨_, hlo, _, _⟩ := mem_mkJobs rest w base (i + 1) x hx
    have hxj' : x.jid = base + i := hxj
    omega

lemma parents_done_setStatus {s : Store} {j : Nat} {a : Status} (st : Status) {c : Job}
    (hstat : jobStatus s j = a) (hac : a ≠ Status.completed)
    (hpd : parents_done s c) : parents_done (setStatus s j st) c := by
  intro p hp
  have hpc := hpd p hp
  have hpj : p ≠ j := by
    intro hpj
    rw [hpj, hstat] at hpc
    exact hac hpc
  rw [jobStatus_setStatus_ne st hpj]
  exact hpc

lemma statusInv_setStatus {s : Store} {j : Nat} {a : Status} (b : Status)
    (hinv : statusInv s) (hn : (s.jobs.map Job.jid).Nodup)
    (hstat : jobStatus s j = a) (hac : a ≠ Status.completed)
    (haw : a ≠ Status.waiting) :
    statusInv (setStatus s j b) := by
  intro x' hx' hxw
  rw [setStatus_jobs] at hx'
  obtain ⟨x, hx, hfx⟩ := List.mem_map.mp hx'
  have hxp : x'.parents = x.parents := by
    rw [← hfx]
    by_cases hj : x.jid = j
    · rw [setStatus_upd_eq _ _ _ hj]
    · rw [setStatus_upd_ne _ _ _ hj]
  have hpdx : parents_done s x := by
    by_cases hj : x.jid = j
    · refine hinv x hx ?_
      have hjs := jobStatus_of_mem hn hx
      rw [hj, hstat] at hjs
      rw [← hjs]
      exact haw
    · refine hinv x hx ?_
      have hxx : x' = x := by rw [← hfx, setStatus_upd_ne _ _ _ hj]
      rw [← hxx]
      exact hxw
  intro p hp
  rw [hxp] at hp
  exact parents_done_setStatus b hstat hac hpdx p hp

lemma statusInv_updateChildren {s : Store} {j : Nat} (hinv : statusInv s) :
    statusInv (updateChildren s j) := by
  intro x' hx' hxw
  rw [updateChildren_jobs] at hx'
  obtain ⟨x, hx, hfx⟩ := List.mem_map.mp hx'
  by_cases hc : j ∈ x.parents ∧ x.status = Status.waiting ∧ parents_done s x
  · have hx'eq : x' = { x with status := Status.ready } := by rw [← hfx, if_pos hc]
    intro p hp
    have hp' : p ∈ x.parents := by rw [hx'eq] at hp; exact hp
    exact jobStatus_updateChildren_of_completed (hc.2.2 p hp')
  · have hx'eq : x' = x := by rw [← hfx, if_neg hc]
    intro p hp
    have hxw' : x.status ≠ Status.waiting := by rw [← hx'eq]; exact hxw
    have hp' : p ∈ x.parents := by rw [hx'eq] at hp; exact hp
    exact jobStatus_updateChildren_of_completed (hinv x hx hxw' p hp')

lemma wf_store_map_status (s : Store) (f : Job → Job)
    (hjid : ∀ x, (f x).jid = x.jid) (hwf : ∀ x, (f x).wfId = x.wfId)
    (h : wf_store s) (hinv : statusInv { s with jobs := s.jobs.map f }) :
    wf_store { s with jobs := s.jobs.map f } := by
  refine ⟨?_, ?_, ?_, h.2.2.2.1, hinv⟩
  · intro x' hx'
    obtain ⟨x, hx, hfx⟩ := List.mem_map.mp hx'
    rw [← hfx, hjid]
    exact h.1 x hx
  · show ((s.jobs.map f).map Job.jid).Nodup
    rw [List.map_map]
    have he : s.jobs.map (Job.jid ∘ f) = s.jobs.map Job.jid :=
      List.map_congr_left (fun x _ => hjid x)
    rw [he]
    exact h.2.1
  · intro x' hx'
    obtain ⟨x, hx, hfx⟩ := List.mem_map.mp hx'
    rw [← hfx, hwf]
    exact h.2.2.1 x hx

lemma wf_store_empty : wf_store empty_store := by decide

lemma wf_store_submit {s : Store} (wf : Workflow) (h : wf_store s) :
    wf_store (submit s wf).2 := by
  unfold submit
  by_cases hac : acyclic wf = true
  · rw [if_pos hac]
    refine ⟨?_, ?_, ?_, ?_, ?_⟩
    · intro x hx
      rcases List.mem_append.mp hx with hx | hx
      · exact Nat.lt_of_lt_of_le (h.1 x hx) (Nat.le_add_right _ _)
      · obtain ⟨_, _, hhi, _⟩ := mem_mkJobs wf s.nextWf s.nextJob 0 x hx
        show x.jid < s.nextJob + wf.length
        omega
    · show ((s.jobs ++ mkJobs s.nextWf s.nextJob wf 0).map Job.jid).Nodup
      rw [List.map_append]
      refine List.Nodup.append h.2.1 (mkJobs_jids_nodup wf s.nextWf s.nextJob 0) ?_
      intro a ha1 ha2
      obtain ⟨x, hx, hxa⟩ := List.mem_map.mp ha1
      obtain ⟨y, hy, hya⟩ := List.mem_map.mp ha2
      have hxb := h.1 x hx
      obtain ⟨_, hlo, _, _⟩ := mem_mkJobs wf s.nextWf s.nextJob 0 y hy
      omega
    · intro x hx
      rcases List.mem_append.mp hx with hx | hx
      · exact Nat.lt_of_lt_of_le (h.2.2.1 x hx) (Nat.le_add_right _ _)
      · obtain ⟨hw, _⟩ := mem_mkJobs wf s.nextWf s.nextJob 0 x hx
        show x.wfId < s.nextWf + 1
        omega
    · intro w hw
      rcases List.mem_append.mp hw with hw | hw
      · exact Nat.lt_of_lt_of_le (h.2.2.2.1 w hw) (Nat.le_add_right _ _)
      · rcases List.mem_cons.mp hw with hw | hw
        · show w < s.nextWf + 1
          omega
        · cases hw
    · intro x hx hxw
      rcases List.mem_append.mp hx with hx | hx
      · have hpd := h.2.2.2.2 x hx hxw
        intro p hp
        have hpc := hpd p hp
        show find_status (s.jobs ++ mkJobs s.nextWf s.nextJob wf 0) p = Status.completed
        rw [find_status_append (mkJobs s.nextWf s.nextJob wf 0) (by
          show jobStatus s p ≠ Status.waiting
          rw [hpc]; decide)]
        exact hpc
      · obtain ⟨_, _, _, wj, _, hpar, _, hst⟩ := mem_mkJobs wf s.nextWf s.nextJob 0 x hx
        have hemp : wj.parents.isEmpty = true := by
          by_contra hne
          rw [if_neg (by simpa using hne)] at hst
          exact hxw hst
        have : x.parents = [] := by
          rw [hpar, List.isEmpty_iff.mp hemp]
          rfl
        intro p hp
        rw [this] at hp
        cases hp
  · rw [if_neg hac]
    exact h

lemma wf_store_launch {s : Store} (h : wf_store s) : wf_store (launch_one s).2 := by
  rw [launch_one_nodup h.2.1]
  cases hsel : selectReady s with
  | none => exact h
  | some j =>
    have hr : jobStatus s j = Status.ready := selectReady_status h.2.1 hsel
    have h1 : wf_store (setStatus s j Status.running) := by
      refine wf_store_map_status s _ (fun x => by split <;> rfl)
        (fun x => by split <;> rfl) h ?_
      exact statusInv_setStatus _ h.2.2.2.2 h.2.1 hr (by decide) (by decide)
    have hr1 : jobStatus (setStatus s j Status.running) j = Status.running :=
      jobStatus_setStatus_self _ (by rw [hr]; decide)
    obtain ⟨jb, hf, hjb, heq⟩ := finish_job_eq hr1
    show wf_store (finish_job (setStatus s j Status.running) j)
    rw [heq]
    by_cases hrt : run_tasks jb.tasks = true
    · rw [if_pos hrt]
      have h2 : wf_store (setStatus (setStatus s j Status.running) j Status.completed) := by
        refine wf_store_map_status _ _ (fun x => by split <;> rfl)
          (fun x => by split <;> rfl) h1 ?_
        exact statusInv_setStatus _ h1.2.2.2.2 h1.2.1 hr1 (by decide) (by decide)
      refine wf_store_map_status _ _ (fun x => by split <;> rfl)
        (fun x => by split <;> rfl) h2 ?_
      exact statusInv_updateChildren h2.2.2.2.2
    · rw [if_neg hrt]
      refine wf_store_map_status _ _ (fun x => by split <;> rfl)
        (fun x => by split <;> rfl) h1 ?_
      exact statusInv_setStatus _ h1.2.2.2.2 h1.2.1 hr1 (by decide) (by decide)

lemma reachable_wf {s : Store} (h : Reachable s) : wf_store s := by
  induction h with
  | init => exact wf_store_empty
  | step_submit wf _ ih => exact wf_store_submit wf ih
  | step_launch _ ih => exact wf_store_launch ih
  | step_reset _ _ => exact wf_store_empty

/-! The status state machine and the per-job effect of each operation. -/

lemma machine_path_completed {b : Status}
    (h : machine_path Status.completed b) : b = Status.completed := by
  rcases Relation.ReflTransGen.cases_head h with h | ⟨c, hc, _⟩
  · exact h.symm
  · cases hc

lemma machine_path_failed {b : Status}
    (h : machine_path Status.failed b) : b = Status.failed := by
  rcases Relation.ReflTransGen.cases_head h with h | ⟨c, hc, _⟩
  · exact h.symm
  · cases hc

lemma jobStatus_submit_path (s : Store) (wf : Workflow) (p : Nat) :
    machine_path (jobStatus s p) (jobStatus (submit s wf).2 p) := by
  unfold submit
  by_cases hac : acyclic wf = true
  · rw [if_pos hac]
    show machine_path (jobStatus s p)
      (find_status (s.jobs ++ mkJobs s.nextWf s.nextJob wf 0) p)
    unfold jobStatus find_status
    rw [List.find?_append]
    cases hf : s.jobs.find? (fun x => x.jid == p) with
    | some x =>
      rw [Option.or_some]
      exact Relation.ReflTransGen.refl
    | none =>
      rw [Option.none_or]
      cases hg : (mkJobs s.nextWf s.nextJob wf 0).find? (fun x => x.jid == p) with
      | none => exact Relation.ReflTransGen.refl
      | some y =>
        have hy := List.mem_of_find?_eq_some hg
        obtain ⟨_, _, _, wj, _, _, _, hst⟩ := mem_mkJobs wf s.nextWf s.nextJob 0 y hy
        by_cases he : wj.parents.isEmpty = true
        · rw [if_pos he] at hst
          show machine_path Status.waiting y.status
          rw [hst]
          exact Relation.ReflTransGen.single StepEdge.wake
        · rw [if_neg he] at hst
          show machine_path Status.waiting y.status
          rw [hst]
          exact Relation.ReflTransGen.refl
  · rw [if_neg hac]
    exact Relation.ReflTransGen.refl

lemma jobStatus_launch_path (s : Store) (p : Nat) :
    machine_path (jobStatus s p) (jobStatus (launch_one s).2 p) := by
  cases hsel : selectReady s with
  | none =>
    rw [launch_one_of_none hsel]
    exact Relation.ReflTransGen.refl
  | some j =>
    cases hclaim : tryClaim s j with
    | error e =>
      rw [launch_one_of_conflict hsel hclaim]
      exact Relation.ReflTransGen.refl
    | ok s1 =>
      obtain ⟨hr, hs1⟩ := tryClaim_ok hclaim
      rw [launch_one_of_claim hsel hclaim]
      subst hs1
      show machine_path (jobStatus s p)
        (jobStatus (finish_job (setStatus s j Status.running) j) p)
      have hr1 : jobStatus (setStatus s j Status.running) j = Status.running :=
        jobStatus_setStatus_self _ (by rw [hr]; decide)
      obtain ⟨jb, hf, hjb, heq⟩ := finish_job_eq hr1
      rw [heq]
      by_cases hrt : run_tasks jb.tasks = true
      · rw [if_pos hrt]
        by_cases hp : p = j
        · subst hp
          have h2 : jobStatus (setStatus (setStatus s p Status.running) p Status.completed) p
              = Status.completed :=
            jobStatus_setStatus_self _ (by rw [hr1]; decide)
          have h3 := jobStatus_updateChildren_of_completed
            (j := p) (s := setStatus (setStatus s p Status.running) p Status.completed) h2
          rw [h3, hr]
          exact Relation.ReflTransGen.head StepEdge.claim
            (Relation.ReflTransGen.single StepEdge.complete)
        · have h1 : jobStatus (setStatus s j Status.running) p = jobStatus s p :=
            jobStatus_setStatus_ne _ hp
          have h2 : jobStatus (setStatus (setStatus s j Status.running) j Status.completed) p
              = jobStatus s p := by
            rw [jobStatus_setStatus_ne _ hp, h1]
          rcases jobStatus_updateChildren
              (setStatus (setStatus s j Status.running) j Status.completed) j p with
            h3 | ⟨hw, h3⟩
          · rw [h3, h2]
            exact Relation.ReflTransGen.refl
          · rw [h3]
            rw [h2] at hw
            rw [hw]
            exact Relation.ReflTransGen.single StepEdge.wake
      · rw [if_neg hrt]
        by_cases hp : p = j
        · subst hp
          have h2 : jobStatus (setStatus (setStatus s p Status.running) p Status.failed) p
              = Status.failed :=
            jobStatus_setStatus_self _ (by rw [hr1]; decide)
          rw [h2, hr]
          exact Relation.ReflTransGen.head StepEdge.claim
            (Relation.ReflTransGen.single StepEdge.fail)
        · have h2 : jobStatus (setStatus (setStatus s j Status.running) j Status.failed) p
              = jobStatus s p := by
            rw [jobStatus_setStatus_ne _ hp, jobStatus_setStatus_ne _ hp]
          rw [h2]
          exact Relation.ReflTransGen.refl

/-! Record-level effect of one launch, and termination of rapid-fire. -/

lemma launch_one_eq_some {s : Store} {j : Nat}
    (hn : (s.jobs.map Job.jid).Nodup) (hsel : selectReady s = some j) :
    launch_one s
      = (LaunchOutcome.launched j, finish_job (setStatus s j Status.running) j) := by
  have hr := selectReady_status hn hsel
  have hclaim : tryClaim s j = Except.ok (setStatus s j Status.running) := by
    unfold tryClaim
    rw [if_pos hr]
  exact launch_one_of_claim hsel hclaim

lemma launch_records {s : Store} {j : Nat}
    (hn : (s.jobs.map Job.jid).Nodup) (hsel : selectReady s = some j) :
    ∀ x' ∈ (launch_one s).2.jobs, ∃ x ∈ s.jobs,
      x'.jid = x.jid ∧ x'.parents = x.parents ∧
      ((x.jid = j ∧ (x'.status = Status.completed ∨ x'.status = Status.failed)) ∨
        (x.jid ≠ j ∧ (x'.status = x.status
          ∨ (x.status = Status.waiting ∧ x'.status = Status.ready)))) := by
  intro x' hx'
  rw [show (launch_one s).2 = finish_job (setStatus s j Status.running) j by
    rw [launch_one_eq_some hn hsel]] at hx'
  have hr := selectReady_status hn hsel
  have hr1 : jobStatus (setStatus s j Status.running) j = Status.running :=
    jobStatus_setStatus_self _ (by rw [hr]; decide)
  obtain ⟨jb, hf, hjb, heq⟩ := finish_job_eq hr1
  rw [heq] at hx'
  by_cases hrt : run_tasks jb.tasks = true
  · rw [if_pos hrt] at hx'
    rw [updateChildren_jobs] at hx'
    obtain ⟨x2, hx2, hgx⟩ := List.mem_map.mp hx'
    rw [setStatus_jobs] at hx2
    obtain ⟨x1, hx1, hf2⟩ := List.mem_map.mp hx2
    rw [setStatus_jobs] at hx1
    obtain ⟨x, hx, hf1⟩ := List.mem_map.mp hx1
    refine ⟨x, hx, ?_⟩
    by_cases hj : x.jid = j
    · rw [setStatus_upd_eq _ _ _ hj] at hf1
      subst hf1
      rw [setStatus_upd_eq _ _ _ (show ({ x with status := Status.running } : Job).jid = j from hj)] at hf2
      subst hf2
      rw [if_neg (by
        intro hc
        have hcs := hc.2.1
        simp at hcs)] at hgx
      subst hgx
      exact ⟨rfl, rfl, Or.inl ⟨hj, Or.inl rfl⟩⟩
    · rw [setStatus_upd_ne _ _ _ hj] at hf1
      subst hf1
      rw [setStatus_upd_ne _ _ _ hj] at hf2
      subst hf2
      by_cases hc : j ∈ x.parents ∧ x.status = Status.waiting
        ∧ parents_done (setStatus (setStatus s j Status.running) j Status.completed) x
      · rw [if_pos hc] at hgx
        subst hgx
        exact ⟨rfl, rfl, Or.inr ⟨hj, Or.inr ⟨hc.2.1, rfl⟩⟩⟩
      · rw [if_neg hc] at hgx
        subst hgx
        exact ⟨rfl, rfl, Or.inr ⟨hj, Or.inl rfl⟩⟩
  · rw [if_neg hrt] at hx'
    rw [setStatus_jobs] at hx'
    obtain ⟨x1, hx1, hf2⟩ := List.mem_map.mp hx'
    rw [setStatus_jobs] at hx1
    obtain ⟨x, hx, hf1⟩ := List.mem_map.mp hx1
    refine ⟨x, hx, ?_⟩
    by_cases hj : x.jid = j
    · rw [setStatus_upd_eq _ _ _ hj] at hf1
      subst hf1
      rw [setStatus_upd_eq _ _ _ (show ({ x with status := Status.running } : Job).jid = j from hj)] at hf2
      subst hf2
      exact ⟨rfl, rfl, Or.inl ⟨hj, Or.inr rfl⟩⟩
    · rw [setStatus_upd_ne _ _ _ hj] at hf1
      subst hf1
      rw [setStatus_upd_ne _ _ _ hj] at hf2
      subst hf2
      exact ⟨rfl, rfl, Or.inr ⟨hj, Or.inl rfl⟩⟩

lemma launch_records_forward {s : Store} {j : Nat}
    (hn : (s.jobs.map Job.jid).Nodup) (hsel : selectReady s = some j) :
    ∀ x ∈ s.jobs, ∃ x' ∈ (launch_one s).2.jobs,
      x'.jid = x.jid ∧ x'.parents = x.parents := by
  intro x hx
  rw [show (launch_one s).2 = finish_job (setStatus s j Status.running) j by
    rw [launch_one_eq_some hn hsel]]
  have hr := selectReady_status hn hsel
  have hr1 : jobStatus (setStatus s j Status.running) j = Status.running :=
    jobStatus_setStatus_self _ (by rw [hr]; decide)
  obtain ⟨jb, hf, hjb, heq⟩ := finish_job_eq hr1
  rw [heq]
  by_cases hrt : run_tasks jb.tasks = true
  · rw [if_pos hrt]
    rw [updateChildren_jobs, setStatus_jobs, setStatus_jobs]
    refine ⟨_, List.mem_map_of_mem _ (List.mem_map_of_mem _ (List.mem_map_of_mem _ hx)), ?_, ?_⟩
    · simp only [upd_child_jid, upd_run_jid]
      split <;> rfl
    · simp only [upd_child_parents, upd_run_parents]
      split <;> rfl
  · rw [if_neg hrt]
    rw [setStatus_jobs, setStatus_jobs]
    refine ⟨_, List.mem_map_of_mem _ (List.mem_map_of_mem _ hx), ?_, ?_⟩
    · simp only [upd_run_jid]
      split <;> rfl
    · simp only [upd_run_parents]
      split <;> rfl

lemma length_filter_map_le (p : Job → Bool) (f : Job → Job) :
    ∀ l : List Job, (∀ x ∈ l, p (f x) = true → p x = true) →
      ((l.map f).filter p).length ≤ (l.filter p).length := by
  intro l
  induction l with
  | nil => intro _; exact Nat.le_refl _
  | cons a t ih =>
    intro hmono
    rw [List.map_cons, List.filter_cons, List.filter_cons]
    by_cases hfa : p (f a) = true
    · have ha : p a = true := hmono a (List.mem_cons_self a t) hfa
      rw [if_pos hfa, if_pos ha, List.length_cons, List.length_cons]
      exact Nat.succ_le_succ (ih (fun x hx => hmono x (List.mem_cons_of_mem a hx)))
    · rw [if_neg hfa]
      by_cases ha : p a = true
      · rw [if_pos ha, List.length_cons]
        exact Nat.le_succ_of_le (ih (fun x hx => hmono x (List.mem_cons_of_mem a hx)))
      · rw [if_neg ha]
        exact ih (fun x hx => hmono x (List.mem_cons_of_mem a hx))

lemma length_filter_map_lt (p : Job → Bool) (f : Job → Job) :
    ∀ l : List Job, (∀ x ∈ l, p (f x) = true → p x = true) →
      ∀ a ∈ l, p a = true → p (f a) = false →
      ((l.map f).filter p).length < (l.filter p).length := by
  intro l
  induction l with
  | nil => intro _ a ha; cases ha
  | cons b t ih =>
    intro hmono a ha hpa hpfa
    rw [List.map_cons, List.filter_cons, List.filter_cons]
    rcases List.mem_cons.mp ha with hab | hat
    · subst hab
      rw [if_neg (by rw [hpfa]; exact Bool.false_ne_true), if_pos hpa, List.length_cons]
      exact Nat.lt_succ_of_le
        (length_filter_map_le p f t (fun x hx => hmono x (List.mem_cons_of_mem _ hx)))
    · by_cases hfb : p (f b) = true
      · have hb : p b = true := hmono b (List.mem_cons_self b t) hfb
        rw [if_pos hfb, if_pos hb, List.length_cons, List.length_cons]
        exact Nat.succ_lt_succ
          (ih (fun x hx => hmono x (List.mem_cons_of_mem _ hx)) a hat hpa hpfa)
      · rw [if_neg hfb]
        by_cases hb : p b = true
        · rw [if_pos hb, List.length_cons]
          exact Nat.lt_succ_of_lt
            (ih (fun x hx => hmono x (List.mem_cons_of_mem _ hx)) a hat hpa hpfa)
        · rw [if_neg hb]
          exact ih (fun x hx => hmono x (List.mem_cons_of_mem _ hx)) a hat hpa hpfa

lemma active_launch_lt {s : Store} {j : Nat}
    (hn : (s.jobs.map Job.jid).Nodup) (hsel : selectReady s = some j) :
    active (launch_one s).2 < active s := by
  rw [show (launch_one s).2 = finish_job (setStatus s j Status.running) j by
    rw [launch_one_eq_some hn hsel]]
  have hr := selectReady_status hn hsel
  have hr1 : jobStatus (setStatus s j Status.running) j = Status.running :=
    jobStatus_setStatus_self _ (by rw [hr]; decide)
  obtain ⟨jb, hf, hjb, heq⟩ := finish_job_eq hr1
  rw [heq]
  obtain ⟨r, hrmem, hrj, hrst⟩ := selectReady_some hsel
  have hstep1 : active (setStatus s j Status.running) < active s := by
    show ((s.jobs.map fun x => if x.jid == j then { x with status := Status.running } else x).filter
      fun x => decide (x.status = Status.waiting ∨ x.status = Status.ready)).length
      < (s.jobs.filter fun x => decide (x.status = Status.waiting ∨ x.status = Status.ready)).length
    refine length_filter_map_lt _ _ s.jobs ?_ r hrmem ?_ ?_
    · intro x hx hpx
      by_cases hj : x.jid = j
      · rw [setStatus_upd_eq _ _ _ hj] at hpx
        simp at hpx
      · rw [setStatus_upd_ne _ _ _ hj] at hpx
        exact hpx
    · simp [hrst]
    · rw [setStatus_upd_eq _ _ _ hrj]
      simp
  have hmono2 : ∀ (s0 : Store) (st : Status),
      st ≠ Status.waiting → st ≠ Status.ready →
      active (setStatus s0 j st) ≤ active s0 := by
    intro s0 st hw hr'
    show ((s0.jobs.map fun x => if x.jid == j then { x with status := st } else x).filter
      fun x => decide (x.status = Status.waiting ∨ x.status = Status.ready)).length
      ≤ (s0.jobs.filter fun x => decide (x.status = Status.waiting ∨ x.status = Status.ready)).length
    refine length_filter_map_le _ _ s0.jobs ?_
    intro x hx hpx
    by_cases hj : x.jid = j
    · rw [setStatus_upd_eq _ _ _ hj] at hpx
      simp only [decide_eq_true_eq] at hpx
      rcases hpx with hpx | hpx
      · exact absurd hpx hw
      · exact absurd hpx hr'
    · rw [setStatus_upd_ne _ _ _ hj] at hpx
      exact hpx
  by_cases hrt : run_tasks jb.tasks = true
  · rw [if_pos hrt]
    have hstep3 : active (updateChildren
        (setStatus (setStatus s j Status.running) j Status.completed) j)
        ≤ active (setStatus (setStatus s j Status.running) j Status.completed) := by
      show ((((setStatus (setStatus s j Status.running) j Status.completed)).jobs.map
        fun c => if j ∈ c.parents ∧ c.status = Status.waiting
          ∧ parents_done (setStatus (setStatus s j Status.running) j Status.completed) c
          then { c with status := Status.ready } else c).filter
        fun x => decide (x.status = Status.waiting ∨ x.status = Status.ready)).length
        ≤ _
      refine length_filter_map_le _ _ _ ?_
      intro x hx hpx
      by_cases hc : j ∈ x.parents ∧ x.status = Status.waiting
          ∧ parents_done (setStatus (setStatus s j Status.running) j Status.completed) x
      · simp [hc.2.1]
      · rw [if_neg hc] at hpx
        exact hpx
    have hstep2 := hmono2 (setStatus s j Status.running) Status.completed
      (by decide) (by decide)
    exact Nat.lt_of_le_of_lt (Nat.le_trans hstep3 hstep2) hstep1
  · rw [if_neg hrt]
    exact Nat.lt_of_le_of_lt
      (hmono2 (setStatus s j Status.running) Status.failed (by decide) (by decide)) hstep1

lemma map_jid_preserve {l : List Job} (f : Job → Job) (hf : ∀ x, (f x).jid = x.jid) :
    (l.map f).map Job.jid = l.map Job.jid := by
  rw [List.map_map]
  have he : l.map (Job.jid ∘ f) = l.map Job.jid :=
    List.map_congr_left (fun x _ => hf x)
  rw [he]

lemma nodup_launch {s : Store} (hn : (s.jobs.map Job.jid).Nodup) :
    ((launch_one s).2.jobs.map Job.jid).Nodup := by
  cases hsel : selectReady s with
  | none =>
    rw [launch_one_of_none hsel]
    exact hn
  | some j =>
    rw [show (launch_one s).2 = finish_job (setStatus s j Status.running) j by
      rw [launch_one_eq_some hn hsel]]
    have hr := selectReady_status hn hsel
    have hr1 : jobStatus (setStatus s j Status.running) j = Status.running :=
      jobStatus_setStatus_self _ (by rw [hr]; decide)
    obtain ⟨jb, hf, hjb, heq⟩ := finish_job_eq hr1
    rw [heq]
    by_cases hrt : run_tasks jb.tasks = true
    · rw [if_pos hrt]
      rw [updateChildren_jobs, setStatus_jobs, setStatus_jobs]
      rw [map_jid_preserve _ (fun x => upd_child_jid _ _ x),
        map_jid_preserve _ (fun x => upd_run_jid _ _ x),
        map_jid_preserve _ (fun x => upd_run_jid _ _ x)]
      exact hn
    · rw [if_neg hrt]
      rw [setStatus_jobs, setStatus_jobs]
      rw [map_jid_preserve _ (fun x => upd_run_jid _ _ x),
        map_jid_preserve _ (fun x => upd_run_jid _ _ x)]
      exact hn

lemma no_running_launch {s : Store} (hn : (s.jobs.map Job.jid).Nodup)
    (hnr : no_running s) : no_running (launch_one s).2 := by
  cases hsel : selectReady s with
  | none =>
    rw [launch_one_of_none hsel]
    exact hnr
  | some j =>
    intro x' hx'
    obtain ⟨x, hx, _, _, hcase⟩ := launch_records hn hsel x' hx'
    rcases hcase with ⟨_, h' | h'⟩ | ⟨_, h' | ⟨_, h'⟩⟩ <;> rw [h']
    · decide
    · decide
    · exact hnr x hx
    · decide

lemma selectReady_none_of {s : Store}
    (h : ∀ x ∈ s.jobs, x.status ≠ Status.ready) : selectReady s = none := by
  unfold selectReady
  rw [minJid_eq_none]
  unfold readyJobs
  rw [List.filter_eq_nil_iff]
  intro x hx
  simp [h x hx]

lemma rapidfire_aux_done :
    ∀ (fuel : Nat) (s : Store), active s ≤ fuel →
      (s.jobs.map Job.jid).Nodup → no_running s →
      ∀ x ∈ (rapidfire_aux fuel s).jobs,
        x.status ≠ Status.ready ∧ x.status ≠ Status.running := by
  intro fuel
  induction fuel with
  | zero =>
    intro s hle hn hnr x hx
    refine ⟨?_, hnr x hx⟩
    intro hready
    have h0 : (s.jobs.filter fun x =>
        decide (x.status = Status.waiting ∨ x.status = Status.ready)).length = 0 :=
      Nat.le_zero.mp hle
    have hfe := List.length_eq_zero.mp h0
    have hmem : x ∈ s.jobs.filter fun x =>
        decide (x.status = Status.waiting ∨ x.status = Status.ready) :=
      List.mem_filter.mpr ⟨hx, by simp [hready]⟩
    rw [hfe] at hmem
    cases hmem
  | succ fuel ih =>
    intro s hle hn hnr
    cases hsel : selectReady s with
    | none =>
      have hstep : rapidfire_aux (fuel + 1) s = s := by
        unfold rapidfire_aux
        rw [launch_one_of_none hsel]
      rw [hstep]
      intro x hx
      exact ⟨selectReady_none hsel x hx, hnr x hx⟩
    | some j =>
      have heq := launch_one_eq_some hn hsel
      have hstep : rapidfire_aux (fuel + 1) s
          = rapidfire_aux fuel (finish_job (setStatus s j Status.running) j) := by
        have h2 : rapidfire_aux (fuel + 1) s
            = match launch_one s with
              | (LaunchOutcome.launched _, s1) => rapidfire_aux fuel s1
              | (_, _) => s := rfl
        rw [h2, heq]
      rw [hstep]
      have hsnd : (launch_one s).2 = finish_job (setStatus s j Status.running) j := by
        rw [heq]
      have hlt := active_launch_lt hn hsel
      rw [hsnd] at hlt
      have hn' := nodup_launch hn
      rw [hsnd] at hn'
      have hnr' := no_running_launch hn hnr
      rw [hsnd] at hnr'
      exact ih _ (by omega) hn' hnr'

lemma rapidfire_done {s : Store} (hn : (s.jobs.map Job.jid).Nodup)
    (hnr : no_running s) :
    ∀ x ∈ (rapidfire s).jobs, x.status ≠ Status.ready ∧ x.status ≠ Status.running :=
  rapidfire_aux_done (active s) s (Nat.le_refl _) hn hnr

lemma rapidfire_of_idle {s : Store}
    (h : ∀ x ∈ s.jobs, x.status ≠ Status.ready) : rapidfire s = s := by
  unfold rapidfire
  cases hA : active s with
  | zero => rfl
  | succ n =>
    unfold rapidfire_aux
    rw [launch_one_of_none (selectReady_none_of h)]

lemma claim_with_retry_conflict {s : Store} {j : Nat} {e : Err} (fuel : Nat)
    (hsel : selectReady s = some j) (hclaim : tryClaim s j = Except.error e) :
    claim_with_retry (fuel + 1) s = claim_with_retry fuel s := by
  have h0 : claim_with_retry (fuel + 1) s
      = match selectReady s with
        | none => none
        | some j =>
          match tryClaim s j with
          | Except.ok s1 => some (j, s1)
          | Except.error _ => claim_with_retry fuel s := rfl
  rw [h0, hsel]
  show (match tryClaim s j with
    | Except.ok s1 => some (j, s1)
    | Except.error _ => claim_with_retry fuel s) = claim_with_retry fuel s
  rw [hclaim]

/-! The claims. -/

/-- C1: for every well-formed store and every acyclic workflow, submit
succeeds returning the next workflow identifier, get_summary then reports
exactly the submitted jobs, and every submitted job is WAITING or READY
consistent with the parent/child invariant: a job with no parents is
READY, and a READY job has every parent COMPLETED. -/
theorem C1_submit_summary (s : Store) (wf : Workflow)
    (hw : wf_store s) (hac : acyclic wf = true) :
    (submit s wf).1 = Except.ok s.nextWf ∧
    get_summary (submit s wf).2 s.nextWf
      = Except.ok (((submit s wf).2.jobs.filter (fun x => x.wfId == s.nextWf)).map
          (fun x => (x.jid, x.status))) ∧
    ∀ x ∈ (submit s wf).2.jobs, x.wfId = s.nextWf →
      (x.status = Status.waiting ∨ x.status = Status.ready) ∧
      (x.parents = [] → x.status = Status.ready) ∧
      (x.status = Status.ready → parents_done (submit s wf).2 x) := by
  have hsub : submit s wf
      = (Except.ok s.nextWf,
        { jobs := s.jobs ++ mkJobs s.nextWf s.nextJob wf 0,
          wfs := s.wfs ++ [s.nextWf],
          nextWf := s.nextWf + 1,
          nextJob := s.nextJob + wf.length }) := by
    unfold submit
    rw [if_pos hac]
  rw [hsub]
  refine ⟨rfl, ?_, ?_⟩
  · unfold get_summary
    rw [if_pos (by simp)]
  · intro x hx hxw
    rcases List.mem_append.mp hx with hxo | hxn
    · exfalso
      have hb := hw.2.2.1 x hxo
      omega
    · obtain ⟨_, _, _, wj, hwj, hpar, _, hst⟩ := mem_mkJobs wf s.nextWf s.nextJob 0 x hxn
      by_cases he : wj.parents.isEmpty = true
      · rw [if_pos he] at hst
        refine ⟨Or.inr hst, fun _ => hst, fun _ => ?_⟩
        intro p hp
        rw [hpar, List.isEmpty_iff.mp he] at hp
        cases hp
      · rw [if_neg he] at hst
        refine ⟨Or.inl hst, ?_, ?_⟩
        · intro hnil
          rw [hpar] at hnil
          rw [List.map_eq_nil_iff.mp hnil] at he
          exact absurd rfl he
        · intro hready
          rw [hst] at hready
          exact absurd hready (by decide)

/-- C1 witness: the chain workflow submitted to the empty store. -/
theorem C1_submit_summary_witness :
    wf_store empty_store ∧ acyclic wfChain = true ∧
    ((submit empty_store wfChain).1 = Except.ok empty_store.nextWf ∧
      get_summary (submit empty_store wfChain).2 empty_store.nextWf
        = Except.ok (((submit empty_store wfChain).2.jobs.filter
            (fun x => x.wfId == empty_store.nextWf)).map (fun x => (x.jid, x.status))) ∧
      ∀ x ∈ (submit empty_store wfChain).2.jobs, x.wfId = empty_store.nextWf →
        (x.status = Status.waiting ∨ x.status = Status.ready) ∧
        (x.parents = [] → x.status = Status.ready) ∧
        (x.status = Status.ready → parents_done (submit empty_store wfChain).2 x)) :=
  ⟨by decide, by decide, C1_submit_summary empty_store wfChain (by decide) (by decide)⟩

/-- C2: in every reachable store a READY job has all of its parents
COMPLETED; and after a launch marks job j COMPLETED, a child of j is
READY exactly when all of the child's parents are COMPLETED. -/
theorem C2_ready_invariant (s : Store) (hreach : Reachable s) :
    (∀ x ∈ s.jobs, x.status = Status.ready → parents_done s x) ∧
    (∀ j : Nat, (launch_one s).1 = LaunchOutcome.launched j →
      jobStatus (launch_one s).2 j = Status.completed →
      ∀ c ∈ (launch_one s).2.jobs, j ∈ c.parents →
        (c.status = Status.ready ↔ parents_done (launch_one s).2 c)) := by
  have hw := reachable_wf hreach
  have hn := hw.2.1
  have hinv := hw.2.2.2.2
  refine ⟨fun x hx hr => hinv x hx (by rw [hr]; decide), ?_⟩
  intro j hl hcomp c hcmem hcpar
  obtain ⟨hsel, s1, hclaim, hsnd⟩ := launch_one_launched hl
  obtain ⟨hr, hs1⟩ := tryClaim_ok hclaim
  subst hs1
  have hr1 : jobStatus (setStatus s j Status.running) j = Status.running :=
    jobStatus_setStatus_self _ (by rw [hr]; decide)
  obtain ⟨jb, hf, hjb, heq⟩ := finish_job_eq hr1
  by_cases hrt : run_tasks jb.tasks = true
  case neg =>
    exfalso
    rw [hsnd, heq, if_neg hrt] at hcomp
    rw [jobStatus_setStatus_self _ (by rw [hr1]; decide)] at hcomp
    exact absurd hcomp (by decide)
  case pos =>
  rw [hsnd, heq, if_pos hrt] at hcmem ⊢
  rw [updateChildren_jobs] at hcmem
  obtain ⟨x2, hx2, hgx⟩ := List.mem_map.mp hcmem
  rw [setStatus_jobs] at hx2
  obtain ⟨x1, hx1, hf2⟩ := List.mem_map.mp hx2
  rw [setStatus_jobs] at hx1
  obtain ⟨x, hx, hf1⟩ := List.mem_map.mp hx1
  by_cases hj : x.jid = j
  · exfalso
    rw [setStatus_upd_eq _ _ _ hj] at hf1
    subst hf1
    rw [setStatus_upd_eq _ _ _
      (show ({ x with status := Status.running } : Job).jid = j from hj)] at hf2
    subst hf2
    rw [if_neg (by
      intro hcond
      have hcs := hcond.2.1
      simp at hcs)] at hgx
    subst hgx
    have hxs : x.status = Status.ready := by
      have hjm := jobStatus_of_mem hn hx
      rw [hj, hr] at hjm
      exact hjm.symm
    have hpd := hinv x hx (by rw [hxs]; decide)
    have hcj := hpd j hcpar
    rw [hr] at hcj
    exact absurd hcj (by decide)
  · rw [setStatus_upd_ne _ _ _ hj] at hf1
    subst hf1
    rw [setStatus_upd_ne _ _ _ hj] at hf2
    subst hf2
    by_cases hc : j ∈ x.parents ∧ x.status = Status.waiting
        ∧ parents_done (setStatus (setStatus s j Status.running) j Status.completed) x
    · rw [if_pos hc] at hgx
      subst hgx
      constructor
      · intro _ p hp
        exact jobStatus_updateChildren_of_completed (hc.2.2 p hp)
      · intro _
        rfl
    · rw [if_neg hc] at hgx
      subst hgx
      by_cases hxw : x.status = Status.waiting
      · constructor
        · intro hready
          rw [hxw] at hready
          exact absurd hready (by decide)
        · intro hpd'
          exfalso
          apply hc
          refine ⟨hcpar, hxw, ?_⟩
          intro p hp
          exact jobStatus_updateChildren_completed (hpd' p hp)
      · exfalso
        have hpd := hinv x hx hxw
        have hcj := hpd j hcpar
        rw [hr] at hcj
        exact absurd hcj (by decide)

/-- C2 witness: the chain store is reachable and satisfies both parts. -/
theorem C2_ready_invariant_witness :
    (∀ x ∈ sChain.jobs, x.status = Status.ready → parents_done sChain x) ∧
    (∀ j : Nat, (launch_one sChain).1 = LaunchOutcome.launched j →
      jobStatus (launch_one sChain).2 j = Status.completed →
      ∀ c ∈ (launch_one sChain).2.jobs, j ∈ c.parents →
        (c.status = Status.ready ↔ parents_done (launch_one sChain).2 c)) :=
  C2_ready_invariant sChain (Reachable.step_submit wfChain Reachable.init)

/-- C3: submitting a workflow containing a cycle fails with
ValidationError and returns the store unchanged, so nothing is persisted. -/
theorem C3_cycle_rejected (s : Store) (wf : Workflow) (h : acyclic wf = false) :
    submit s wf = (Except.error Err.validationError, s) := by
  unfold submit
  rw [if_neg (by rw [h]; exact Bool.false_ne_true)]

/-- C3 witness: the self-loop workflow is cyclic and is rejected leaving
the empty store unchanged. -/
theorem C3_cycle_rejected_witness :
    acyclic wfCyc = false ∧
    submit empty_store wfCyc = (Except.error Err.validationError, empty_store) :=
  ⟨by decide, C3_cycle_rejected empty_store wfCyc (by decide)⟩

/-- C4: in every reachable store, a job one of whose parents is FAILED is
WAITING, and every record with its identifier is still WAITING after any
further launch: children of a FAILED job never become READY. -/
theorem C4_failed_blocks_children (s : Store) (hreach : Reachable s) :
    ∀ c ∈ s.jobs, ∀ p ∈ c.parents, jobStatus s p = Status.failed →
      c.status = Status.waiting ∧
      ∀ x ∈ (launch_one s).2.jobs, x.jid = c.jid → x.status = Status.waiting := by
  have hw := reachable_wf hreach
  have hw' := reachable_wf (Reachable.step_launch hreach)
  intro c hc p hp hpf
  have hfirst : ∀ (t : Store), wf_store t → ∀ d ∈ t.jobs, p ∈ d.parents →
      jobStatus t p = Status.failed → d.status = Status.waiting := by
    intro t hwt d hd hpd hptf
    by_cases hdw : d.status = Status.waiting
    · exact hdw
    · exfalso
      have := hwt.2.2.2.2 d hd hdw p hpd
      rw [hptf] at this
      exact absurd this (by decide)
  refine ⟨hfirst s hw c hc hp hpf, ?_⟩
  have hpf' : jobStatus (launch_one s).2 p = Status.failed := by
    have hpath := jobStatus_launch_path s p
    rw [hpf] at hpath
    exact machine_path_failed hpath
  intro x hx hxj
  cases hsel : selectReady s with
  | none =>
    rw [launch_one_of_none hsel] at hx
    have hxc : x = c := record_unique hw.2.1 hx hc hxj
    rw [hxc]
    exact hfirst s hw c hc hp hpf
  | some j =>
    obtain ⟨c', hc', hc'j, hc'p⟩ := launch_records_forward hw.2.1 hsel c hc
    have hxc : x = c' := record_unique hw'.2.1 hx hc' (by rw [hxj, hc'j])
    subst hxc
    refine hfirst (launch_one s).2 hw' x hc' ?_ hpf'
    rw [hc'p]
    exact hp

/-- C4 witness: after the first job of the failing chain runs and fails,
its child stays WAITING, also after another launch. -/
theorem C4_failed_blocks_children_witness :
    (⟨2, 1, [1], [true], Status.waiting⟩ : Job) ∈ sFail.jobs ∧
    (1 : Nat) ∈ [1] ∧ jobStatus sFail 1 = Status.failed ∧
    ((⟨2, 1, [1], [true], Status.waiting⟩ : Job).status = Status.waiting ∧
      ∀ x ∈ (launch_one sFail).2.jobs,
        x.jid = (⟨2, 1, [1], [true], Status.waiting⟩ : Job).jid →
        x.status = Status.waiting) :=
  ⟨by decide, by decide, by decide,
    C4_failed_blocks_children sFail
      (Reachable.step_launch (Reachable.step_submit wfFail Reachable.init))
      _ (by decide) 1 (by decide) (by decide)⟩

/-- C5: the status of any job moves along the state machine
WAITING → READY → RUNNING → COMPLETED/FAILED under submit and under a
launch, and the COMPLETED and FAILED statuses never change again. -/
theorem C5_state_machine (s : Store) (wf : Workflow) (p : Nat) :
    machine_path (jobStatus s p) (jobStatus (submit s wf).2 p) ∧
    machine_path (jobStatus s p) (jobStatus (launch_one s).2 p) ∧
    (jobStatus s p = Status.completed →
      jobStatus (launch_one s).2 p = Status.completed ∧
      jobStatus (submit s wf).2 p = Status.completed) ∧
    (jobStatus s p = Status.failed →
      jobStatus (launch_one s).2 p = Status.failed ∧
      jobStatus (submit s wf).2 p = Status.failed) := by
  refine ⟨jobStatus_submit_path s wf p, jobStatus_launch_path s p, ?_, ?_⟩
  · intro h
    constructor
    · have hp := jobStatus_launch_path s p
      rw [h] at hp
      exact machine_path_completed hp
    · have hp := jobStatus_submit_path s wf p
      rw [h] at hp
      exact machine_path_completed hp
  · intro h
    constructor
    · have hp := jobStatus_launch_path s p
      rw [h] at hp
      exact machine_path_failed hp
    · have hp := jobStatus_submit_path s wf p
      rw [h] at hp
      exact machine_path_failed hp

/-- C6: rapid-fire mode terminates and exits exactly when no job is READY
or RUNNING: from a store with distinct job identifiers and no RUNNING
job, the rapid-fire result has no READY and no RUNNING job, and when no
job is READY at entry it exits at once with the store unchanged. -/
theorem C6_rapidfire_terminates (s : Store)
    (hn : (s.jobs.map Job.jid).Nodup) (hnr : no_running s) :
    (∀ x ∈ (rapidfire s).jobs, x.status ≠ Status.ready ∧ x.status ≠ Status.running) ∧
    ((∀ x ∈ s.jobs, x.status ≠ Status.ready) → rapidfire s = s) :=
  ⟨rapidfire_done hn hnr, fun h => rapidfire_of_idle h⟩

/-- C6 witness: rapid-fire on the submitted chain drains it. -/
theorem C6_rapidfire_terminates_witness :
    (sChain.jobs.map Job.jid).Nodup ∧ no_running sChain ∧
    ((∀ x ∈ (rapidfire sChain).jobs,
        x.status ≠ Status.ready ∧ x.status ≠ Status.running) ∧
      ((∀ x ∈ sChain.jobs, x.status ≠ Status.ready) → rapidfire sChain = sChain)) :=
  ⟨by decide, by decide, C6_rapidfire_terminates sChain (by decide) (by decide)⟩

/-- C7: single-launch mode runs exactly the one selected READY job to a
terminal status, leaving every other job unchanged except WAITING
children promoted to READY; with no READY job it reports nothing-to-run
with the store unchanged; exit code 0 except on a store error, which
launch_one never produces. -/
theorem C7_single_launch (s : Store) (hn : (s.jobs.map Job.jid).Nodup) :
    (selectReady s = none →
      launch_one s = (LaunchOutcome.nothingToRun, s) ∧
      ∀ x ∈ s.jobs, x.status ≠ Status.ready) ∧
    (∀ j, selectReady s = some j →
      (launch_one s).1 = LaunchOutcome.launched j ∧
      (jobStatus (launch_one s).2 j = Status.completed ∨
        jobStatus (launch_one s).2 j = Status.failed) ∧
      ∀ p, p ≠ j → (jobStatus (launch_one s).2 p = jobStatus s p ∨
        (jobStatus s p = Status.waiting ∧
          jobStatus (launch_one s).2 p = Status.ready))) ∧
    (∀ o, exit_code o = 0 ↔ o ≠ LaunchOutcome.storeError) ∧
    (launch_one s).1 ≠ LaunchOutcome.storeError := by
  refine ⟨?_, ?_, ?_, ?_⟩
  · intro hsel
    exact ⟨launch_one_of_none hsel, selectReady_none hsel⟩
  · intro j hsel
    have heqa := launch_one_eq_some hn hsel
    have hfst : (launch_one s).1 = LaunchOutcome.launched j := by rw [heqa]
    have hsnd : (launch_one s).2 = finish_job (setStatus s j Status.running) j := by
      rw [heqa]
    have hr := selectReady_status hn hsel
    have hr1 : jobStatus (setStatus s j Status.running) j = Status.running :=
      jobStatus_setStatus_self _ (by rw [hr]; decide)
    obtain ⟨jb, hf, hjb, heq⟩ := finish_job_eq hr1
    refine ⟨hfst, ?_, ?_⟩
    · rw [hsnd, heq]
      by_cases hrt : run_tasks jb.tasks = true
      · rw [if_pos hrt]
        left
        exact jobStatus_updateChildren_of_completed
          (jobStatus_setStatus_self _ (by rw [hr1]; decide))
      · rw [if_neg hrt]
        right
        exact jobStatus_setStatus_self _ (by rw [hr1]; decide)
    · intro p hp
      rw [hsnd, heq]
      by_cases hrt : run_tasks jb.tasks = true
      · rw [if_pos hrt]
        have h2 : jobStatus (setStatus (setStatus s j Status.running) j Status.completed) p
            = jobStatus s p := by
          rw [jobStatus_setStatus_ne _ hp, jobStatus_setStatus_ne _ hp]
        rcases jobStatus_updateChildren
            (setStatus (setStatus s j Status.running) j Status.completed) j p with
          h3 | ⟨hw3, h3⟩
        · left
          rw [h3, h2]
        · right
          rw [h2] at hw3
          exact ⟨hw3, h3⟩
      · rw [if_neg hrt]
        left
        rw [jobStatus_setStatus_ne _ hp, jobStatus_setStatus_ne _ hp]
  · intro o
    cases o <;> simp [exit_code]
  · cases hsel : selectReady s with
    | none =>
      rw [launch_one_of_none hsel]
      intro hcon
      cases hcon
    | some j =>
      cases hclaim : tryClaim s j with
      | ok s1 =>
        rw [launch_one_of_claim hsel hclaim]
        intro hcon
        cases hcon
      | error e =>
        rw [launch_one_of_conflict hsel hclaim]
        intro hcon
        cases hcon

/-- C7 witness: single launch on the submitted chain runs exactly job 1. -/
theorem C7_single_launch_witness :
    (sChain.jobs.map Job.jid).Nodup ∧
    (selectReady sChain = some 1 →
      (launch_one sChain).1 = LaunchOutcome.launched 1 ∧
      (jobStatus (launch_one sChain).2 1 = Status.completed ∨
        jobStatus (launch_one sChain).2 1 = Status.failed) ∧
      ∀ p, p ≠ 1 → (jobStatus (launch_one sChain).2 p = jobStatus sChain p ∨
        (jobStatus sChain p = Status.waiting ∧
          jobStatus (launch_one sChain).2 p = Status.ready))) ∧
    (launch_one sChain).1 ≠ LaunchOutcome.storeError :=
  ⟨by decide, ((C7_single_launch sChain (by decide)).2.1) 1,
    (C7_single_launch sChain (by decide)).2.2.2⟩

/-- C8: reset clears all stored workflows: get_summary after reset fails
with NotFoundError for every workflow identifier, in particular for every
previously submitted one. -/
theorem C8_reset_clears (s : Store) (w : Nat) :
    get_summary (reset s) w = Except.error Err.notFoundError := by
  unfold get_summary reset empty_store
  rw [if_neg (List.not_mem_nil w)]

/-- C9: the claim-and-mark-RUNNING step is an atomic conditional update:
after a successful claim of a job no further claim of it can succeed; the
update is rejected with ClaimConflictError exactly when the job is no
longer READY; and a rejected worker retries selection, so the conflict
never escapes as a result. -/
theorem C9_claim_atomic (s s1 : Store) (j : Nat) (fuel : Nat) :
    (tryClaim s j = Except.ok s1 →
      tryClaim s1 j = Except.error Err.claimConflictError) ∧
    (tryClaim s j = Except.error Err.claimConflictError ↔
      jobStatus s j ≠ Status.ready) ∧
    (∀ e, selectReady s = some j → tryClaim s j = Except.error e →
      claim_with_retry (fuel + 1) s = claim_with_retry fuel s) := by
  refine ⟨?_, tryClaim_error_iff,
    fun e hsel hclaim => claim_with_retry_conflict fuel hsel hclaim⟩
  intro h
  obtain ⟨hr, hs1⟩ := tryClaim_ok h
  subst hs1
  rw [tryClaim_error_iff]
  rw [jobStatus_setStatus_self Status.running (by rw [hr]; decide)]
  decide

/-- C9 witness: job 1 of the chain store is claimed once, the second
claim conflicts; on the duplicated store the claim conflicts and the
worker's retry step reduces to retrying selection. -/
theorem C9_claim_atomic_witness :
    tryClaim sChain 1 = Except.ok (setStatus sChain 1 Status.running) ∧
    tryClaim (setStatus sChain 1 Status.running) 1
      = Except.error Err.claimConflictError ∧
    selectReady sDup = some 1 ∧
    tryClaim sDup 1 = Except.error Err.claimConflictError ∧
    claim_with_retry 1 sDup = claim_with_retry 0 sDup :=
  ⟨by rfl,
    (C9_claim_atomic sChain (setStatus sChain 1 Status.running) 1 0).1 (by rfl),
    by decide, by rfl,
    (C9_claim_atomic sDup (setStatus sDup 1 Status.running) 1 0).2.2
      Err.claimConflictError (by decide) (by rfl)⟩

/-- C10: workflow identifiers restart at 1 after reset: submitting any
acyclic workflow to a freshly reset store yields identifier 1, and the
summary query for identifier 1 then succeeds. -/
theorem C10_first_id_one (s : Store) (wf : Workflow) (hac : acyclic wf = true) :
    (submit (reset s) wf).1 = Except.ok 1 ∧
    ∃ l, get_summary (submit (reset s) wf).2 1 = Except.ok l := by
  have hsub : submit (reset s) wf
      = (Except.ok 1,
        { jobs := mkJobs 1 1 wf 0, wfs := [1],
          nextWf := 2, nextJob := 1 + wf.length }) := by
    unfold submit reset empty_store
    rw [if_pos hac]
    rfl
  rw [hsub]
  refine ⟨rfl, ((mkJobs 1 1 wf 0).filter (fun x => x.wfId == 1)).map
    (fun x => (x.jid, x.status)), ?_⟩
  unfold get_summary
  rw [if_pos (by simp)]

/-- C10 witness: the chain workflow submitted to a freshly reset store
receives identifier 1 and the summary for identifier 1 succeeds. -/
theorem C10_first_id_one_witness :
    acyclic wfChain = true ∧
    ((submit (reset sDup) wfChain).1 = Except.ok 1 ∧
      ∃ l, get_summary (submit (reset sDup) wfChain).2 1 = Except.ok l) :=
  ⟨by decide, C10_first_id_one sDup wfChain (by decide)⟩

end Workshop
